import Mathlib

/-!
Shallow embedding of the S&P 500 sector-deviation pipeline
(`returns_calculator.py`, `data_fetcher.py`, `visualizer.py`).

Modelling conventions:
* dates are `Nat` (the date axis is ordered by the list order of rows);
* a cell value is `Option ℚ`: `none` models pandas `NaN` (a missing price
  or an undefined return), `some q` models an IEEE double, idealised as a
  rational;
* a pandas `Series` is a list of `(date, value)` pairs; a `DataFrame` is a
  `Frame`: a list of column names plus date-indexed rows of cells;
* Python functions that can raise are embedded with `Except`; a function
  whose body contains no `raise` is everywhere `Except.ok`.
-/

namespace SPModel

/-- A cell value: `none` models pandas NaN (missing). -/
abbrev Val := Option ℚ

/-- A pandas Series indexed by date: a list of `(date, value)` pairs. -/
abbrev Series := List (Nat × Val)

/-- A pandas DataFrame: column names plus date-indexed rows of cells
(row `(d, vs)` holds, for date `d`, one cell per column). -/
structure Frame where
  cols : List String
  rows : List (Nat × List Val)
deriving Repr, DecidableEq

/-- Dates of a frame, in row order (the pandas index). -/
def Frame.dates (f : Frame) : List Nat := f.rows.map Prod.fst

/-- Dates of a series, in order (the pandas index). -/
def seriesDates (s : Series) : List Nat := s.map Prod.fst

/-- Look up the value stored in a series at a date: `none` when the date is
absent, `some v` (with `v : Val`) when present (first occurrence). -/
def seriesLookup (s : Series) (d : Nat) : Option Val :=
  (s.find? (fun r => r.1 == d)).map Prod.snd

/-- Value of the i-th entry of a series (`none` when out of range). -/
def seriesValAt (s : Series) (i : Nat) : Val := (s.getD i (0, none)).2

/-- Cell of a row list at row `i`, column `j` (`none` when out of range). -/
def cellOf (rows : List (Nat × List Val)) (i j : Nat) : Val :=
  ((rows.getD i (0, [])).2).getD j none

/-- One step of pandas `pct_change` (with no filling of missing values, the
modern default): current/previous − 1, `NaN` if either is missing. -/
def pctChangeVal (prev cur : Val) : Val :=
  match prev, cur with
  | some p, some c => some (c / p - 1)
  | _, _ => none

/-- Row-level `pct_change`: the first row becomes all-`NaN`; row `i+1`
pairs row `i` with row `i+1` column-wise through `pctChangeVal`. -/
def pctChangeRows : List (Nat × List Val) → List (Nat × List Val)
  | [] => []
  | r :: rest =>
      (r.1, r.2.map (fun _ => (none : Val))) ::
        List.zipWith (fun prev cur => (cur.1, List.zipWith pctChangeVal prev.2 cur.2))
          (r :: rest) rest

/-- Pandas `DataFrame.pct_change` on a frame. -/
def Frame.pct_change (f : Frame) : Frame := ⟨f.cols, pctChangeRows f.rows⟩

/-- Pandas `Series.pct_change` on a series. -/
def seriesPctChange : Series → Series
  | [] => []
  | r :: rest =>
      (r.1, (none : Val)) ::
        List.zipWith (fun prev cur => (cur.1, pctChangeVal prev.2 cur.2)) (r :: rest) rest

/-- Source `calculate_returns` applied to a DataFrame: `prices.pct_change()`. -/
def calculate_returns (prices : Frame) : Frame := prices.pct_change

/-- Source `calculate_returns` applied to a Series: `prices.pct_change()`. -/
def calculate_returns_series (prices : Series) : Series := seriesPctChange prices

/-- A row is complete when no cell is NaN (pandas `dropna` keeps it). -/
def rowComplete (r : Nat × List Val) : Bool := r.2.all Option.isSome

/-- Source `clean_returns_data`: `returns.dropna()` (row-wise drop of any
row containing a NaN). -/
def clean_returns_data (returns : Frame) : Frame :=
  ⟨returns.cols, returns.rows.filter rowComplete⟩

/-- Pandas `Series.loc[dates]`: select the entries at the given dates, in
the given order (call sites only pass dates present in the series). -/
def seriesLoc (s : Series) (ds : List Nat) : Series :=
  ds.filterMap (fun d => (seriesLookup s d).map (fun v => (d, v)))

/-- Pandas `DataFrame.loc[dates]`: select the rows at the given dates, in
the given order (call sites only pass dates present in the frame). -/
def Frame.loc (f : Frame) (ds : List Nat) : Frame :=
  ⟨f.cols, ds.filterMap (fun d => (f.rows.find? (fun r => r.1 == d)).map (fun r => (d, r.2)))⟩

/-- NaN-propagating subtraction of cells. -/
def subVal (a b : Val) : Val :=
  match a, b with
  | some x, some y => some (x - y)
  | _, _ => none

/-- Pandas `df.subtract(s, axis=0)` at the source call site, where `df` and
`s` have been aligned to the same date list: subtract the series value at
each row's date from every cell of that row. -/
def Frame.subtractSeries (f : Frame) (s : Series) : Frame :=
  ⟨f.cols, f.rows.map (fun r => (r.1, r.2.map (fun v => subVal v ((seriesLookup s r.1).getD none))))⟩

/-- Error taxonomy name used by the specification for an empty required
date intersection. The source body of `calculate_deviation_returns`
contains no `raise`, so the embedding below never returns `Except.error`. -/
structure DataError where
  msg : String
deriving Repr, DecidableEq

/-- Source `calculate_deviation_returns`: intersect the two date indexes
(pandas `Index.intersection`, which keeps the caller's order), align both
inputs to the common dates with `.loc`, and subtract the benchmark series
from every sector column. -/
def calculate_deviation_returns (sector_returns : Frame) (spy_returns : Series) :
    Except DataError Frame :=
  let common_dates := sector_returns.dates.filter (fun d => (seriesDates spy_returns).contains d)
  let sector_returns_aligned := sector_returns.loc common_dates
  let spy_returns_aligned := seriesLoc spy_returns common_dates
  Except.ok (sector_returns_aligned.subtractSeries spy_returns_aligned)

/-- Defined (non-NaN) values of a series, in order. -/
def definedVals (s : Series) : List ℚ := s.filterMap (fun r => r.2)

/-- Pandas `Series.mean` (skips NaN): sum of defined values over their
count. -/
def seriesMean (s : Series) : ℚ := (definedVals s).sum / (definedVals s).length

/-- Classification printed by `get_returns_summary` for a sector's mean
deviation: the source's `if mean_dev > 0 / elif mean_dev < 0 / else`
branches. -/
def classifyMeanDev (mean_dev : ℚ) : String :=
  if mean_dev > 0 then "outperformed"
  else if mean_dev < 0 then "underperformed"
  else "matched"

/-- Source `SECTOR_TICKERS` mapping (Python dict iterates in insertion
order, so a list of pairs). -/
def SECTOR_TICKERS : List (String × String) :=
  [("Technology", "XLK"), ("Healthcare", "XLV"), ("Financials", "XLF"),
   ("Consumer Discretionary", "XLY"), ("Communication Services", "XLC"),
   ("Industrials", "XLI"), ("Consumer Staples", "XLP"), ("Energy", "XLE"),
   ("Utilities", "XLU"), ("Real Estate", "XLRE"), ("Materials", "XLB")]

/-- Outcome of one `yf.Ticker(t).history(...)` call, supplied as data:
`none` models a raised exception, `some []` models an empty result. -/
abbrev History := String → Option Series

/-- A ticker's fetch failed when the call raised or returned no rows —
the two branches that append to `failed_tickers` in the source. -/
def fetchFailed (history : History) (ticker : String) : Bool :=
  match history ticker with
  | none => true
  | some d => d.isEmpty

/-- One iteration of the `for sector_name, ticker in SECTOR_TICKERS.items()`
loop of `fetch_sector_data`: on failure extend `failed_tickers`, otherwise
record the closing-price series under the sector name. -/
def fetchStep (history : History)
    (acc : List (String × Series) × List (String × String)) (st : String × String) :
    List (String × Series) × List (String × String) :=
  match history st.2 with
  | none => (acc.1, acc.2 ++ [st])
  | some d => if d.isEmpty then (acc.1, acc.2 ++ [st]) else (acc.1 ++ [(st.1, d)], acc.2)

/-- Source `fetch_sector_data`: fetch every sector, collecting per-sector
series and the failed tickers; raise when every sector failed, otherwise
return the price table (as the name-keyed column list the source turns into
a DataFrame) together with the warned-about failed tickers. -/
def fetch_sector_data (history : History) (tickers : List (String × String)) :
    Except String (List (String × Series) × List (String × String)) :=
  let res := tickers.foldl (fetchStep history) ([], [])
  if res.1.isEmpty then Except.error "Failed to fetch data for all sectors"
  else Except.ok res

/-- Mean of a window of cells, as computed by pandas
`rolling(window=w).mean()` with the default `min_periods` (= `w`): NaN when
any cell of the window is NaN, otherwise the arithmetic mean. -/
def meanOptList (l : List Val) : Val :=
  if l.all Option.isSome then some ((l.filterMap id).sum / l.length) else none

/-- Column `j` of a row list, as a list of cells in date order. -/
def colList (rows : List (Nat × List Val)) (j : Nat) : List Val :=
  rows.map (fun r => r.2.getD j none)

/-- The most recent `w` observations of column `j` up to row `i`. -/
def rollingWindow (rows : List (Nat × List Val)) (w i j : Nat) : List Val :=
  ((colList rows j).take (i + 1)).drop (i + 1 - w)

/-- Pandas `rolling(window=w).mean()` on a row list: row `i`, column `j` is
NaN until `w` observations have accumulated (`i + 1 < w`), and otherwise
the windowed mean of the trailing `w` cells of column `j`. -/
def rollingMeanRows (w : Nat) (rows : List (Nat × List Val)) : List (Nat × List Val) :=
  (List.range rows.length).map (fun i =>
    ((rows.getD i (0, [])).1,
     (List.range (rows.getD i (0, [])).2.length).map (fun j =>
        if i + 1 < w then none else meanOptList (rollingWindow rows w i j))))

/-- Data plotted by source `plot_moving_average_plotly_50day`: the rolling
mean of the deviation returns with the NaN rows dropped (the source then
draws exactly these rows, or no content when none remain). -/
def plot_moving_average_plotly_50day (deviation_returns : Frame) (window : Nat) : Frame :=
  let moving_avg : Frame := ⟨deviation_returns.cols, rollingMeanRows window deviation_returns.rows⟩
  ⟨moving_avg.cols, moving_avg.rows.filter rowComplete⟩

/-! Theorems. -/

/-- C6: applying `cleanReturns` twice yields the same result as applying it
once (idempotence of the row-wise NaN drop). -/
theorem clean_returns_data_idempotent (f : Frame) :
    clean_returns_data (clean_returns_data f) = clean_returns_data f := by
  cases f with
  | mk cols rows => simp [clean_returns_data, List.filter_filter]

/-- C5: `cleanReturns` returns exactly the rows of the input with no
undefined cell, in their original order; the output never contains an
undefined cell; and when only the first row has an undefined cell the
output row count is the input row count minus one. -/
theorem clean_returns_data_spec (f : Frame) :
    (clean_returns_data f).rows = f.rows.filter rowComplete ∧
    (∀ r ∈ (clean_returns_data f).rows, ∀ v ∈ r.2, v.isSome = true) ∧
    (∀ r₀ rest, f.rows = r₀ :: rest → rowComplete r₀ = false →
      (∀ r ∈ rest, rowComplete r = true) →
      (clean_returns_data f).rows.length + 1 = f.rows.length) := by
  refine ⟨rfl, ?_, ?_⟩
  · intro r hr v hv
    have hc : rowComplete r = true := (List.mem_filter.mp hr).2
    exact List.all_eq_true.mp hc v hv
  · intro r₀ rest hrows h₀ hrest
    simp only [clean_returns_data, hrows, List.filter_cons, h₀]
    rw [List.filter_eq_self.mpr hrest]
    simp

/-- C5 witness: a concrete table whose only NaN sits in the first row
loses exactly that one row. -/
theorem clean_returns_data_spec_witness :
    (clean_returns_data ⟨["A"], [(1, [none]), (2, [some 1])]⟩).rows.length + 1 =
      (Frame.mk ["A"] [(1, [none]), (2, [some 1])]).rows.length :=
  (clean_returns_data_spec ⟨["A"], [(1, [none]), (2, [some 1])]⟩).2.2
    (1, [none]) [(2, [some 1])] rfl (by decide) (by decide)

/-- C7: the summary classifies a sector's mean deviation as
"outperformed" iff it is strictly positive, "underperformed" iff strictly
negative, and "matched" iff exactly zero. -/
theorem classifyMeanDev_spec (s : Series) :
    (classifyMeanDev (seriesMean s) = "outperformed" ↔ 0 < seriesMean s) ∧
    (classifyMeanDev (seriesMean s) = "underperformed" ↔ seriesMean s < 0) ∧
    (classifyMeanDev (seriesMean s) = "matched" ↔ seriesMean s = 0) := by
  have h₁ : ("outperformed" : String) ≠ "underperformed" := by decide
  have h₂ : ("outperformed" : String) ≠ "matched" := by decide
  have h₃ : ("underperformed" : String) ≠ "matched" := by decide
  unfold classifyMeanDev
  rcases lt_trichotomy (seriesMean s) 0 with h | h | h
  · rw [if_neg (by linarith), if_pos h]
    refine ⟨⟨fun hc => absurd hc.symm h₁, fun hc => absurd hc (by linarith)⟩,
      ⟨fun _ => h, fun _ => rfl⟩, ⟨fun hc => absurd hc h₃, fun hc => absurd hc (by linarith)⟩⟩
  · rw [if_neg (by simp [h]), if_neg (by simp [h])]
    refine ⟨⟨fun hc => absurd hc.symm h₂, fun hc => absurd hc (by simp [h])⟩,
      ⟨fun hc => absurd hc.symm h₃, fun hc => absurd hc (by simp [h])⟩,
      ⟨fun _ => h, fun _ => rfl⟩⟩
  · rw [if_pos h]
    refine ⟨⟨fun _ => h, fun _ => rfl⟩,
      ⟨fun hc => absurd hc h₁, fun hc => absurd hc (by linarith)⟩,
      ⟨fun hc => absurd hc h₂, fun hc => absurd hc (by linarith)⟩⟩

/-- C3 counterexample: for a sector table and a benchmark series sharing no
dates, `calculate_deviation_returns` does not fail with a `DataError` — it
returns (`Except.ok`) an empty deviation table. -/
theorem calculate_deviation_returns_disjoint_counterexample :
    calculate_deviation_returns ⟨["Technology"], [(1, [some 1]), (2, [some 2])]⟩
        [(3, some 5)] =
      Except.ok ⟨["Technology"], []⟩ := rfl

/-- C3 amended: when the two date sets have an empty intersection,
`calculate_deviation_returns` raises nothing and returns a deviation table
with the sector columns and no rows. -/
theorem calculate_deviation_returns_empty_intersection (S : Frame) (B : Series)
    (h : S.dates.filter (fun d => (seriesDates B).contains d) = []) :
    calculate_deviation_returns S B = Except.ok ⟨S.cols, []⟩ := by
  simp only [calculate_deviation_returns]
  rw [h]
  rfl

/-- C3 amended witness: a concrete disjoint pair yields the empty table. -/
theorem calculate_deviation_returns_empty_intersection_witness :
    calculate_deviation_returns ⟨["A"], [(1, [some 1])]⟩ [(2, some 5)] =
      Except.ok ⟨["A"], []⟩ :=
  calculate_deviation_returns_empty_intersection ⟨["A"], [(1, [some 1])]⟩ [(2, some 5)]
    (by decide)

/-- Selecting from a row list with duplicate-free dates the rows at its own
dates filtered by a predicate is plain row filtering. -/
lemma loc_dates_filter (rows : List (Nat × List Val)) (p : Nat → Bool)
    (h : (rows.map Prod.fst).Nodup) :
    ((rows.map Prod.fst).filter p).filterMap
        (fun d => (rows.find? (fun x => x.1 == d)).map (fun x => (d, x.2))) =
      rows.filter (fun x => p x.1) := by
  induction rows with
  | nil => simp
  | cons r rest ih =>
    simp only [List.map_cons, List.nodup_cons] at h
    obtain ⟨hr, hrest⟩ := h
    have hcongr :
        ((rest.map Prod.fst).filter p).filterMap
            (fun d => ((r :: rest).find? (fun x => x.1 == d)).map (fun x => (d, x.2))) =
          ((rest.map Prod.fst).filter p).filterMap
            (fun d => (rest.find? (fun x => x.1 == d)).map (fun x => (d, x.2))) := by
      apply List.filterMap_congr
      intro d hd
      have hdm : d ∈ rest.map Prod.fst := (List.mem_filter.mp hd).1
      have hfind : List.find? (fun x => x.1 == d) (r :: rest) =
          List.find? (fun x => x.1 == d) rest := by
        refine List.find?_cons_of_neg _ ?_
        simp only [beq_iff_eq]
        intro he
        exact hr (he ▸ hdm)
      rw [hfind]
    by_cases hp : p r.1 = true
    · have hfind : List.find? (fun x => x.1 == r.1) (r :: rest) = some r :=
        List.find?_cons_of_pos _ (by simp)
      simp only [List.map_cons]
      rw [List.filter_cons_of_pos hp, List.filterMap_cons]
      simp only [hfind, Option.map_some']
      rw [hcongr, ih hrest]
      simp [hp]
    · simp only [List.map_cons]
      rw [List.filter_cons_of_neg hp, hcongr, ih hrest]
      simp [hp]

/-- Looking a date up in a series restricted to a duplicate-free date list
gives the original series value when the date is selected, nothing
otherwise. -/
lemma seriesLookup_seriesLoc (B : Series) (ds : List Nat) (hnd : ds.Nodup) (d : Nat) :
    seriesLookup (seriesLoc B ds) d = if d ∈ ds then seriesLookup B d else none := by
  induction ds with
  | nil => simp [seriesLoc, seriesLookup]
  | cons a t ih =>
    simp only [List.nodup_cons] at hnd
    obtain ⟨ha, ht⟩ := hnd
    cases hB : seriesLookup B a with
    | none =>
        have htail : seriesLoc B (a :: t) = seriesLoc B t := by
          rw [seriesLoc, List.filterMap_cons, hB]
          rfl
        rw [htail, ih ht]
        by_cases hda : d = a
        · subst hda
          rw [if_neg ha, if_pos (List.mem_cons_self d t), hB]
        · by_cases hd : d ∈ t
          · rw [if_pos hd, if_pos (List.mem_cons_of_mem a hd)]
          · rw [if_neg hd, if_neg (by simp [hda, hd])]
    | some v =>
        have htail : seriesLoc B (a :: t) = (a, v) :: seriesLoc B t := by
          rw [seriesLoc, List.filterMap_cons, hB]
          rfl
        rw [htail]
        by_cases hda : d = a
        · subst hda
          have hfind : List.find? (fun r => r.1 == d) ((d, v) :: seriesLoc B t) = some (d, v) :=
            List.find?_cons_of_pos _ (by simp)
          rw [seriesLookup, hfind, if_pos (List.mem_cons_self d t), hB]
          rfl
        · have hfind : List.find? (fun r => r.1 == d) ((a, v) :: seriesLoc B t) =
              List.find? (fun r => r.1 == d) (seriesLoc B t) :=
            List.find?_cons_of_neg _ (by simp [Ne.symm hda])
          rw [seriesLookup, hfind]
          rw [show (List.find? (fun r => r.1 == d) (seriesLoc B t)).map Prod.snd =
            seriesLookup (seriesLoc B t) d from rfl, ih ht]
          by_cases hd : d ∈ t
          · rw [if_pos hd, if_pos (List.mem_cons_of_mem a hd)]
          · rw [if_neg hd, if_neg (by simp [hda, hd])]

/-- Characterisation of `calculate_deviation_returns` for a sector table
with duplicate-free dates: it keeps the sector columns, keeps exactly the
sector rows whose date also occurs in the benchmark, and subtracts the
benchmark value at that date from every cell (NaN-propagating). -/
lemma calculate_deviation_returns_eq (S : Frame) (B : Series)
    (hS : (S.rows.map Prod.fst).Nodup) :
    calculate_deviation_returns S B =
      Except.ok ⟨S.cols,
        (S.rows.filter (fun r => (seriesDates B).contains r.1)).map
          (fun r => (r.1, r.2.map (fun v => subVal v ((seriesLookup B r.1).getD none))))⟩ := by
  simp only [calculate_deviation_returns, Frame.loc, Frame.subtractSeries, Frame.dates]
  rw [loc_dates_filter S.rows _ hS]
  congr 1
  congr 1
  apply List.map_congr_left
  intro r hrmem
  have hp : ((seriesDates B).contains r.1) = true := (List.mem_filter.mp hrmem).2
  have hr1 : r.1 ∈ (S.rows.map Prod.fst).filter (fun d => (seriesDates B).contains d) := by
    refine List.mem_filter.mpr ⟨?_, hp⟩
    exact List.mem_map.mpr ⟨r, (List.mem_filter.mp hrmem).1, rfl⟩
  have hnd : ((S.rows.map Prod.fst).filter (fun d => (seriesDates B).contains d)).Nodup :=
    hS.filter _
  rw [seriesLookup_seriesLoc B _ hnd r.1, if_pos hr1]

/-- Taking first components commutes with filtering on the first
component. -/
lemma map_fst_filter_fst (rows : List (Nat × List Val)) (p : Nat → Bool) :
    (rows.filter (fun x => p x.1)).map Prod.fst = (rows.map Prod.fst).filter p := by
  induction rows with
  | nil => rfl
  | cons r rest ih => by_cases hp : p r.1 = true <;> simp [List.filter_cons, hp, ih]

/-- C1: on intersecting inputs (sector dates without duplicates), the
deviation table's dates are exactly the intersection of the sector and
benchmark dates, and the deviation row at a date where the benchmark
return is `b` is the sector row with every defined return `a` replaced by
`a - b`. -/
theorem calculate_deviation_returns_values (S : Frame) (B : Series)
    (hS : (S.rows.map Prod.fst).Nodup)
    (hne : (S.rows.map Prod.fst).filter (fun d => (seriesDates B).contains d) ≠ [])
    (t : Frame) (ht : calculate_deviation_returns S B = Except.ok t) :
    t.rows.map Prod.fst = (S.rows.map Prod.fst).filter (fun d => (seriesDates B).contains d) ∧
    (∀ d, d ∈ t.rows.map Prod.fst ↔ d ∈ S.rows.map Prod.fst ∧ d ∈ seriesDates B) ∧
    (∀ r ∈ S.rows, ∀ b : ℚ, seriesLookup B r.1 = some (some b) →
      (r.1, r.2.map (fun v => v.map (fun a => a - b))) ∈ t.rows) := by
  rw [calculate_deviation_returns_eq S B hS] at ht
  injection ht with ht
  subst ht
  refine ⟨?_, ?_, ?_⟩
  · rw [List.map_map]
    exact map_fst_filter_fst S.rows _
  · intro d
    rw [List.map_map]
    have h1 := map_fst_filter_fst S.rows (fun d => (seriesDates B).contains d)
    calc d ∈ (S.rows.filter (fun r => (seriesDates B).contains r.1)).map
          (Prod.fst ∘ fun r => (r.1, r.2.map (fun v => subVal v ((seriesLookup B r.1).getD none))))
        ↔ d ∈ (S.rows.map Prod.fst).filter (fun d => (seriesDates B).contains d) := by rw [← h1]; rfl
      _ ↔ d ∈ S.rows.map Prod.fst ∧ d ∈ seriesDates B := by simp
  · intro r hr b hb
    have hmem : r.1 ∈ seriesDates B := by
      have : (B.find? (fun x => x.1 == r.1)).isSome := by
        rw [seriesLookup] at hb
        cases hfind : B.find? (fun x => x.1 == r.1) with
        | none => rw [hfind] at hb; exact absurd hb (by simp)
        | some x => simp
      obtain ⟨x, hx⟩ := Option.isSome_iff_exists.mp this
      have hxmem : x ∈ B := List.mem_of_find?_eq_some hx
      have hxd := List.find?_some hx
      have : x.1 = r.1 := by simpa using hxd
      exact this ▸ List.mem_map.mpr ⟨x, hxmem, rfl⟩
    have hcont : ((seriesDates B).contains r.1) = true := by simpa using hmem
    refine List.mem_map.mpr ⟨r, List.mem_filter.mpr ⟨hr, hcont⟩, ?_⟩
    rw [hb]
    simp only [Option.getD_some]
    congr 1
    apply List.map_congr_left
    intro v _
    cases v <;> rfl

/-- C1 witness: a one-sector table over dates 1,2 against a benchmark
defined on dates 2,3 produces exactly the intersection date 2 (with
deviation 5 − 1 = 4). -/
theorem calculate_deviation_returns_values_witness :
    (Frame.mk ["A"] [(2, [some (4 : ℚ)])]).rows.map Prod.fst =
      ((Frame.mk ["A"] [(1, [some 3]), (2, [some 5])]).rows.map Prod.fst).filter
        (fun d => (seriesDates [(2, some 1), (3, some 7)]).contains d) := by
  have ht : calculate_deviation_returns ⟨["A"], [(1, [some 3]), (2, [some 5])]⟩
      [(2, some 1), (3, some 7)] = Except.ok ⟨["A"], [(2, [some 4])]⟩ := by
    rw [calculate_deviation_returns_eq _ _ (by decide)]
    norm_num [seriesDates, seriesLookup, subVal, List.find?, List.filter,
      List.filterMap_cons, List.filterMap_nil, List.map_cons, List.map_nil]
  exact (calculate_deviation_returns_values ⟨["A"], [(1, [some 3]), (2, [some 5])]⟩
    [(2, some 1), (3, some 7)] (by decide) (by decide)
    ⟨["A"], [(2, [some 4])]⟩ ht).1

/-- C10: the deviation table has exactly the sector table's columns, in the
same order (the benchmark contributes no column), and its date index is a
sublist of the sector index (relative order preserved). -/
theorem calculate_deviation_returns_frame_effect (S : Frame) (B : Series)
    (hS : (S.rows.map Prod.fst).Nodup)
    (t : Frame) (ht : calculate_deviation_returns S B = Except.ok t) :
    t.cols = S.cols ∧ (t.rows.map Prod.fst).Sublist (S.rows.map Prod.fst) := by
  rw [calculate_deviation_returns_eq S B hS] at ht
  injection ht with ht
  subst ht
  refine ⟨rfl, ?_⟩
  rw [List.map_map]
  have h1 : ((S.rows.filter (fun r => (seriesDates B).contains r.1)).map Prod.fst).Sublist
      (S.rows.map Prod.fst) := by
    rw [map_fst_filter_fst S.rows (fun d => (seriesDates B).contains d)]
    exact List.filter_sublist _
  exact h1

/-- C10 witness: with two sector columns and one overlapping date, the
output keeps both columns in order and the date index [2] is a sublist of
[1, 2]. -/
theorem calculate_deviation_returns_frame_effect_witness :
    (Frame.mk ["T", "F"] [((2 : Nat), [some ((4 : ℚ)), some 5])]).cols =
      (Frame.mk ["T", "F"] [(1, [some 3, some 4]), (2, [some 5, some 6])]).cols ∧
    ((Frame.mk ["T", "F"] [((2 : Nat), [some ((4 : ℚ)), some 5])]).rows.map Prod.fst).Sublist
      ((Frame.mk ["T", "F"] [(1, [some 3, some 4]), (2, [some 5, some 6])]).rows.map Prod.fst) := by
  have ht : calculate_deviation_returns ⟨["T", "F"], [(1, [some 3, some 4]), (2, [some 5, some 6])]⟩
      [(2, some 1), (3, some 7)] = Except.ok ⟨["T", "F"], [(2, [some 4, some 5])]⟩ := by
    rw [calculate_deviation_returns_eq _ _ (by decide)]
    norm_num [seriesDates, seriesLookup, subVal, List.find?, List.filter,
      List.filterMap_cons, List.filterMap_nil, List.map_cons, List.map_nil]
  exact calculate_deviation_returns_frame_effect
    ⟨["T", "F"], [(1, [some 3, some 4]), (2, [some 5, some 6])]⟩
    [(2, some 1), (3, some 7)] (by decide) ⟨["T", "F"], [(2, [some 4, some 5])]⟩ ht

/-- Entry `i + 1` of a series `pct_change` applies `pctChangeVal` to the
entries `i` and `i + 1` of the input. -/
lemma seriesPctChange_valAt_succ (s : Series) (i : Nat) (h : i + 1 < s.length) :
    seriesValAt (seriesPctChange s) (i + 1) =
      pctChangeVal (s.getD i (0, none)).2 (s.getD (i + 1) (0, none)).2 := by
  cases s with
  | nil => simp at h
  | cons r rest =>
    have hi : i < rest.length := by
      have := Nat.lt_of_succ_lt_succ (by simpa using h)
      simpa using this
    have hlen : i < (List.zipWith (fun prev cur => (cur.1, pctChangeVal prev.2 cur.2))
        (r :: rest) rest).length := by
      simp only [List.length_zipWith, List.length_cons]
      omega
    have h1 : i < (r :: rest).length := by simp; omega
    simp only [seriesPctChange, seriesValAt, List.getD_cons_succ]
    rw [List.getD_eq_getElem _ _ hlen, List.getD_eq_getElem _ _ h1, List.getD_eq_getElem _ _ hi]
    simp [List.getElem_zipWith]

/-- Length preservation for series `pct_change`. -/
lemma seriesPctChange_length (s : Series) : (seriesPctChange s).length = s.length := by
  cases s with
  | nil => rfl
  | cons r rest =>
    simp only [seriesPctChange, List.length_cons, List.length_zipWith]
    omega

/-- C2: on a no-missing-value price series of length at least 2, the
returns series has the input's length, entry 0 undefined, and entry
`i + 1` equal to `price(i+1)/price(i) − 1`; on a constant nonzero price
series every defined entry is 0. -/
theorem calculate_returns_series_spec (s : Series) (h2 : 2 ≤ s.length)
    (hdef : ∀ r ∈ s, r.2.isSome = true) :
    (calculate_returns_series s).length = s.length ∧
    seriesValAt (calculate_returns_series s) 0 = none ∧
    (∀ i a b, i + 1 < s.length → (s.getD i (0, none)).2 = some a →
      (s.getD (i + 1) (0, none)).2 = some b →
      seriesValAt (calculate_returns_series s) (i + 1) = some (b / a - 1)) ∧
    (∀ c : ℚ, c ≠ 0 → (∀ r ∈ s, r.2 = some c) → ∀ i, i + 1 < s.length →
      seriesValAt (calculate_returns_series s) (i + 1) = some 0) := by
  refine ⟨seriesPctChange_length s, ?_, ?_, ?_⟩
  · cases s with
    | nil => simp at h2
    | cons r rest => rfl
  · intro i a b hi ha hb
    rw [calculate_returns_series, seriesPctChange_valAt_succ s i hi, ha, hb]
    rfl
  · intro c hc hconst i hi
    have hmi : i < s.length := Nat.lt_of_succ_lt hi
    have ha : (s.getD i (0, none)).2 = some c := by
      have : s.getD i (0, none) ∈ s := by
        rw [List.getD_eq_getElem _ _ hmi]
        exact List.getElem_mem hmi
      exact hconst _ this
    have hb : (s.getD (i + 1) (0, none)).2 = some c := by
      have : s.getD (i + 1) (0, none) ∈ s := by
        rw [List.getD_eq_getElem _ _ hi]
        exact List.getElem_mem hi
      exact hconst _ this
    rw [calculate_returns_series, seriesPctChange_valAt_succ s i hi, ha, hb]
    simp [pctChangeVal, div_self hc]

/-- C2 witness: a constant price series of length 3 has returns
[undefined, 0, 0]. -/
theorem calculate_returns_series_spec_witness :
    seriesValAt (calculate_returns_series [(1, some 7), (2, some 7), (3, some 7)]) 1 = some 0 :=
  (calculate_returns_series_spec [(1, some 7), (2, some 7), (3, some 7)]
    (by decide) (by decide)).2.2.2 7 (by norm_num) (by decide) 0 (by decide)

/-- Dates of a zipped `pct_change` tail are the dates of the shorter
(current-row) operand. -/
lemma zipWith_pct_dates (l₁ l₂ : List (Nat × List Val)) (h : l₂.length ≤ l₁.length) :
    (List.zipWith (fun prev cur => (cur.1, List.zipWith pctChangeVal prev.2 cur.2)) l₁ l₂).map
        Prod.fst = l₂.map Prod.fst := by
  induction l₂ generalizing l₁ with
  | nil => simp
  | cons b t ih =>
    cases l₁ with
    | nil => simp at h
    | cons a ta =>
        simp only [List.zipWith_cons_cons, List.map_cons, List.cons.injEq]
        exact ⟨trivial, ih ta (by simpa using Nat.le_of_succ_le_succ (by simpa using h))⟩

/-- Frame `pct_change` preserves the date index. -/
lemma pctChangeRows_dates (rows : List (Nat × List Val)) :
    (pctChangeRows rows).map Prod.fst = rows.map Prod.fst := by
  cases rows with
  | nil => rfl
  | cons r rest =>
    simp only [pctChangeRows, List.map_cons, List.cons.injEq]
    exact ⟨trivial, zipWith_pct_dates (r :: rest) rest (by simp)⟩

/-- Row `i + 1` of a frame `pct_change` pairs rows `i` and `i + 1`
column-wise. -/
lemma pctChangeRows_getD_succ (rows : List (Nat × List Val)) (i : Nat) (h : i + 1 < rows.length) :
    (pctChangeRows rows).getD (i + 1) (0, []) =
      ((rows.getD (i + 1) (0, [])).1,
        List.zipWith pctChangeVal (rows.getD i (0, [])).2 (rows.getD (i + 1) (0, [])).2) := by
  cases rows with
  | nil => simp at h
  | cons r rest =>
    have hi : i < rest.length := by
      simp only [List.length_cons] at h
      omega
    have h1 : i < (r :: rest).length := by
      simp only [List.length_cons]
      omega
    have hlen : i < (List.zipWith
        (fun prev cur => (cur.1, List.zipWith pctChangeVal prev.2 cur.2))
        (r :: rest) rest).length := by
      simp only [List.length_zipWith, List.length_cons]
      omega
    simp only [pctChangeRows, List.getD_cons_succ]
    rw [List.getD_eq_getElem _ _ hlen, List.getD_eq_getElem _ _ h1, List.getD_eq_getElem _ _ hi]
    simp [List.getElem_zipWith]

/-- Cell-wise `pct_change` yields NaN whenever either operand cell is NaN
(or absent). -/
lemma zipWith_pct_cell_none (as bs : List Val) (j : Nat)
    (h : as.getD j none = none ∨ bs.getD j none = none) :
    (List.zipWith pctChangeVal as bs).getD j none = none := by
  induction as generalizing bs j with
  | nil => simp
  | cons a ta ih =>
    cases bs with
    | nil => simp
    | cons b tb =>
      cases j with
      | zero =>
          simp only [List.getD_cons_zero] at h ⊢
          simp only [List.zipWith_cons_cons, List.getD_cons_zero]
          rcases h with h | h
          · rw [h]
            rfl
          · rw [h]
            cases a <;> rfl
      | succ n =>
          simp only [List.getD_cons_succ] at h ⊢
          simp only [List.zipWith_cons_cons, List.getD_cons_succ]
          exact ih tb n h

/-- Mapping every cell of a row to NaN leaves no defined cell at any
column index. -/
lemma getD_map_const_none (l : List Val) (j : Nat) :
    (l.map (fun _ => (none : Val))).getD j none = none := by
  induction l generalizing j with
  | nil => rfl
  | cons a t ih =>
      cases j with
      | zero => rfl
      | succ n =>
          simp only [List.map_cons, List.getD_cons_succ]
          exact ih n

/-- C4: on price data that may contain missing values, `calculate_returns`
raises nothing (it is a total function), preserves the columns and the
date index, leaves the first date's value undefined, and yields an
undefined value wherever the current or the prior price is missing. -/
theorem calculate_returns_missing_spec (f : Frame) :
    (calculate_returns f).cols = f.cols ∧
    (calculate_returns f).rows.map Prod.fst = f.rows.map Prod.fst ∧
    (∀ j, 0 < f.rows.length → cellOf (calculate_returns f).rows 0 j = none) ∧
    (∀ i j, i + 1 < f.rows.length →
      (cellOf f.rows i j = none ∨ cellOf f.rows (i + 1) j = none) →
      cellOf (calculate_returns f).rows (i + 1) j = none) := by
  refine ⟨rfl, pctChangeRows_dates f.rows, ?_, ?_⟩
  · intro j h0
    show cellOf (pctChangeRows f.rows) 0 j = none
    cases hrows : f.rows with
    | nil =>
        rw [hrows] at h0
        simp at h0
    | cons r rest =>
        simp only [pctChangeRows, cellOf, List.getD_cons_zero]
        exact getD_map_const_none r.2 j
  · intro i j hi h
    show cellOf (pctChangeRows f.rows) (i + 1) j = none
    rw [cellOf, pctChangeRows_getD_succ f.rows i hi]
    exact zipWith_pct_cell_none _ _ j h

/-- C4 witness: a two-date table whose second price is missing has an
undefined return at the second date. -/
theorem calculate_returns_missing_spec_witness :
    cellOf (calculate_returns ⟨["A"], [(1, [some 5]), (2, [none])]⟩).rows 1 0 = none :=
  (calculate_returns_missing_spec ⟨["A"], [(1, [some 5]), (2, [none])]⟩).2.2.2 0 0
    (by decide) (Or.inr (by decide))

/-- Unrolling of the fetch loop: starting from any accumulator, it appends
the successful sectors (with their data, in ticker order) and the failed
tickers (in ticker order). -/
lemma foldl_fetchStep_eq (history : History) (l : List (String × String))
    (acc : List (String × Series) × List (String × String)) :
    l.foldl (fetchStep history) acc =
      (acc.1 ++ (l.filter (fun st => !(fetchFailed history st.2))).map
          (fun st => (st.1, (history st.2).getD [])),
       acc.2 ++ l.filter (fun st => fetchFailed history st.2)) := by
  induction l generalizing acc with
  | nil => simp
  | cons st t ih =>
    rw [List.foldl_cons, ih]
    cases hh : history st.2 with
    | none =>
        have hf : fetchFailed history st.2 = true := by
          rw [fetchFailed, hh]
        simp [fetchStep, hh, List.filter_cons, hf]
    | some d =>
        by_cases hde : d.isEmpty = true
        · have hf : fetchFailed history st.2 = true := by
            rw [fetchFailed, hh]
            exact hde
          simp [fetchStep, hh, hde, List.filter_cons, hf]
        · have hf : fetchFailed history st.2 = false := by
            rw [fetchFailed, hh]
            simpa using hde
          have hgetD : (history st.2).getD [] = d := by
            rw [hh]
            rfl
          simp [fetchStep, hh, hde, List.filter_cons, hf, hgetD]

/-- C8: when at least one sector fetch succeeds, `fetch_sector_data`
completes, its price table holds exactly the successful sectors (in order,
under their sector names) and its warning list holds exactly the failed
tickers; when every sector fetch fails it raises. -/
theorem fetch_sector_data_spec (history : History) :
    (SECTOR_TICKERS.any (fun st => !(fetchFailed history st.2)) = true →
      fetch_sector_data history SECTOR_TICKERS =
        Except.ok
          ((SECTOR_TICKERS.filter (fun st => !(fetchFailed history st.2))).map
              (fun st => (st.1, (history st.2).getD [])),
           SECTOR_TICKERS.filter (fun st => fetchFailed history st.2))) ∧
    ((∀ st ∈ SECTOR_TICKERS, fetchFailed history st.2 = true) →
      fetch_sector_data history SECTOR_TICKERS =
        Except.error "Failed to fetch data for all sectors") := by
  constructor
  · intro hany
    rw [fetch_sector_data, foldl_fetchStep_eq]
    simp only [List.nil_append]
    rw [if_neg ?hne]
    case hne =>
      simp only [List.isEmpty_iff, List.map_eq_nil_iff, List.filter_eq_nil_iff]
      intro hall
      obtain ⟨st, hst, hok⟩ := List.any_eq_true.mp hany
      exact (hall st hst) hok
  · intro hall
    rw [fetch_sector_data, foldl_fetchStep_eq]
    simp only [List.nil_append]
    rw [if_pos ?hpos]
    case hpos =>
      simp only [List.isEmpty_iff, List.map_eq_nil_iff, List.filter_eq_nil_iff]
      intro st hst
      simp [hall st hst]

/-- Fetch outcome where only the Technology ticker XLK fails. -/
def histDropXLK : History :=
  fun t => if t = "XLK" then none else some [(0, some 1)]

/-- Fetch outcome where every ticker raises. -/
def histAllFail : History := fun _ => none

/-- C8 witness: losing only XLK keeps the ten other sectors and warns about
XLK; losing every ticker raises. -/
theorem fetch_sector_data_spec_witness :
    (fetch_sector_data histDropXLK SECTOR_TICKERS =
      Except.ok
        ((SECTOR_TICKERS.filter (fun st => !(fetchFailed histDropXLK st.2))).map
            (fun st => (st.1, (histDropXLK st.2).getD [])),
         SECTOR_TICKERS.filter (fun st => fetchFailed histDropXLK st.2))) ∧
    fetch_sector_data histAllFail SECTOR_TICKERS =
      Except.error "Failed to fetch data for all sectors" :=
  ⟨(fetch_sector_data_spec histDropXLK).1 (by decide),
   (fetch_sector_data_spec histAllFail).2 (by decide)⟩

/-- Row `i` of the rolling mean, explicitly. -/
lemma rollingMeanRows_row (w : Nat) (rows : List (Nat × List Val)) (i : Nat)
    (hi : i < rows.length) :
    (rollingMeanRows w rows).getD i (0, []) =
      ((rows.getD i (0, [])).1,
       (List.range (rows.getD i (0, [])).2.length).map (fun j =>
          if i + 1 < w then none else meanOptList (rollingWindow rows w i j))) := by
  have hlen : i < ((List.range rows.length).map (fun i =>
      ((rows.getD i (0, [])).1,
       (List.range (rows.getD i (0, [])).2.length).map (fun j =>
          if i + 1 < w then none else meanOptList (rollingWindow rows w i j))))).length := by
    simp [hi]
  rw [rollingMeanRows, List.getD_eq_getElem _ _ hlen, List.getElem_map, List.getElem_range]

/-- Filtering is unchanged by first dropping a prefix on which the
predicate is everywhere false. -/
lemma filter_eq_filter_drop {α : Type} (p : α → Bool) (l : List α) (k : Nat)
    (h : ∀ i, i < k → ∀ hi : i < l.length, p (l.get ⟨i, hi⟩) = false) :
    l.filter p = (l.drop k).filter p := by
  induction k generalizing l with
  | zero => simp
  | succ m ih =>
    cases l with
    | nil => simp
    | cons a t =>
        have h0 : p a = false := h 0 (Nat.succ_pos m) (by simp)
        rw [List.filter_cons_of_neg (by simp [h0]), List.drop_succ_cons]
        exact ih t (fun i him hit => h (i + 1) (Nat.succ_lt_succ him) (by simpa using hit))

/-- Rows of the rolling mean before `w` observations have accumulated fail
the completeness check, provided the table has at least one column. -/
lemma rollingMeanRows_incomplete (w : Nat) (rows : List (Nat × List Val)) (i : Nat)
    (hi : i < rows.length) (hw : i + 1 < w) (hlen : 0 < (rows.getD i (0, [])).2.length) :
    rowComplete ((rollingMeanRows w rows).getD i (0, [])) = false := by
  rw [rollingMeanRows_row w rows i hi]
  rw [rowComplete]
  simp only [Bool.eq_false_iff]
  intro hall
  have h0 := List.all_eq_true.mp hall
      ((fun j => if i + 1 < w then none else meanOptList (rollingWindow rows w i j)) 0)
      (List.mem_map.mpr ⟨0, List.mem_range.mpr hlen, rfl⟩)
  simp [hw] at h0

/-- C9: for the rolling moving average of a deviation table, every cell
before the `w`-th observation is undefined and those rows are omitted from
the plotted output; from the `w`-th observation on, the cell is the mean of
the trailing window of (exactly `w`) most recent observations; and when the
table has fewer than `w` rows the plotted output is empty. -/
theorem plot_moving_average_spec (f : Frame) (w : Nat) (hw : 1 ≤ w) :
    (∀ i j, i + 1 < w → cellOf (rollingMeanRows w f.rows) i j = none) ∧
    (∀ i j, w ≤ i + 1 → i < f.rows.length → j < (f.rows.getD i (0, [])).2.length →
      cellOf (rollingMeanRows w f.rows) i j = meanOptList (rollingWindow f.rows w i j) ∧
      (rollingWindow f.rows w i j).length = w) ∧
    ((∀ r ∈ f.rows, 0 < r.2.length) → f.rows.length < w →
      plot_moving_average_plotly_50day f w = ⟨f.cols, []⟩) ∧
    ((∀ r ∈ f.rows, 0 < r.2.length) →
      (plot_moving_average_plotly_50day f w).rows =
        ((rollingMeanRows w f.rows).drop (w - 1)).filter rowComplete) := by
  have hrowmem : ∀ i, i < f.rows.length → f.rows.getD i (0, []) ∈ f.rows := by
    intro i hi
    rw [List.getD_eq_getElem _ _ hi]
    exact List.getElem_mem hi
  refine ⟨?_, ?_, ?_, ?_⟩
  · intro i j hiw
    by_cases hi : i < f.rows.length
    · rw [cellOf, rollingMeanRows_row w f.rows i hi]
      by_cases hj : j < (f.rows.getD i (0, [])).2.length
      · have hj2 : j < ((List.range (f.rows.getD i (0, [])).2.length).map (fun j =>
            if i + 1 < w then none else meanOptList (rollingWindow f.rows w i j))).length := by
          simp only [List.length_map, List.length_range]
          exact hj
        rw [List.getD_eq_getElem _ _ hj2, List.getElem_map, List.getElem_range, if_pos hiw]
      · rw [List.getD_eq_default]
        simp only [List.length_map, List.length_range]
        exact Nat.le_of_not_lt hj
    · have hrow0 : (rollingMeanRows w f.rows).getD i (0, []) = (0, []) :=
        List.getD_eq_default _ _ (by simpa [rollingMeanRows] using Nat.le_of_not_lt hi)
      rw [cellOf, hrow0]
      simp
  · intro i j hwi hi hj
    constructor
    · rw [cellOf, rollingMeanRows_row w f.rows i hi]
      have hj2 : j < ((List.range (f.rows.getD i (0, [])).2.length).map (fun j =>
          if i + 1 < w then none else meanOptList (rollingWindow f.rows w i j))).length := by
        simp only [List.length_map, List.length_range]
        exact hj
      rw [List.getD_eq_getElem _ _ hj2, List.getElem_map, List.getElem_range,
        if_neg (by omega)]
    · rw [rollingWindow]
      have hcol : (colList f.rows j).length = f.rows.length := by
        simp [colList]
      rw [List.length_drop, List.length_take, hcol]
      omega
  · intro hrect hnw
    show (⟨f.cols, (rollingMeanRows w f.rows).filter rowComplete⟩ : Frame) = ⟨f.cols, []⟩
    have hnil : (rollingMeanRows w f.rows).filter rowComplete = [] := by
      rw [List.filter_eq_nil_iff]
      intro r hr
      rw [rollingMeanRows] at hr
      obtain ⟨i, hirange, hgi⟩ := List.mem_map.mp hr
      have hi : i < f.rows.length := List.mem_range.mp hirange
      have hrow : r = (rollingMeanRows w f.rows).getD i (0, []) := by
        rw [rollingMeanRows_row w f.rows i hi]
        rw [← hgi]
      rw [hrow]
      simp only [Bool.not_eq_true]
      exact rollingMeanRows_incomplete w f.rows i hi (by omega)
        (hrect _ (hrowmem i hi))
    rw [hnil]
  · intro hrect
    show (rollingMeanRows w f.rows).filter rowComplete =
      ((rollingMeanRows w f.rows).drop (w - 1)).filter rowComplete
    apply filter_eq_filter_drop
    intro i hik hilen
    have hi : i < f.rows.length := by
      have : (rollingMeanRows w f.rows).length = f.rows.length := by
        simp [rollingMeanRows]
      omega
    have hget : (rollingMeanRows w f.rows).get ⟨i, hilen⟩ =
        (rollingMeanRows w f.rows).getD i (0, []) := by
      rw [List.getD_eq_getElem _ _ hilen]
      rfl
    rw [hget]
    exact rollingMeanRows_incomplete w f.rows i hi (by omega) (hrect _ (hrowmem i hi))

/-- C9 witness: a three-row table with window 5 produces an empty plotted
output. -/
theorem plot_moving_average_spec_witness :
    plot_moving_average_plotly_50day ⟨["A"], [(1, [some 1]), (2, [some 3]), (3, [some 5])]⟩ 5 =
      ⟨["A"], []⟩ :=
  (plot_moving_average_spec ⟨["A"], [(1, [some 1]), (2, [some 3]), (3, [some 5])]⟩ 5
    (by decide)).2.2.1 (by decide) (by decide)

end SPModel
